import Mathlib

/-!
Shallow embedding of `hw5.py` (class `QuestionnaireAnalysis`): a questionnaire
table with columns `age`, `gender`, `email`, `q1`..`q5`, and the four analysis
operations (age histogram, email filtering, row-wise NA imputation, grouped
means), plus path-validating construction.

Modelling conventions:
* A loaded table (`self.data`, produced by `pd.read_json`) is a `List Row`;
  its pandas `RangeIndex` is the list position.
* Missing numeric cells (`NaN`) are `Option Rat` with `none` for missing.
* `DataFrame.reset_index` keeping the old index as a column is modelled by
  pairing each kept row with its pre-filter position.
* The matplotlib `plt.hist` return value (a 3-tuple of counts, bin edges and
  bar patches) is modelled as a heterogeneous list of `PlotObj`.
-/

namespace HW5

/-- One respondent row of the questionnaire table: columns `age`, `gender`,
`email` and the five question scores `q1`..`q5` (nullable). -/
structure Row where
  age : Rat
  gender : String
  email : String
  q1 : Option Rat
  q2 : Option Rat
  q3 : Option Rat
  q4 : Option Rat
  q5 : Option Rat
deriving DecidableEq, Repr

/-! ### The email regex `\w+[.\w+]*@\w+.\w+` (used with `Series.str.match`,
i.e. `re.match`: anchored at the start of the string only). -/

/-- Python regex `\w` (ASCII letters, digits, underscore; alphanumeric
covers the Unicode cases pandas would also accept). -/
def isWordChar (c : Char) : Bool := c.isAlphanum || c == '_'

/-- A character of the class `[.\w+]`: a literal dot, a literal plus sign,
or a word character. -/
def isClassChar (c : Char) : Bool := c == '.' || c == '+' || isWordChar c

/-- Matches the regex fragment `.\w+` as a prefix: any character other than
a newline, then at least one word character (prefix matching: the rest of
the string is unconstrained). -/
def matchDotW : List Char → Bool
  | c :: d :: _ => c != '\n' && isWordChar d
  | _ => false

/-- Matches `\w*.\w+` as a prefix (what remains of `\w+.\w+` after its first
mandatory word character). -/
def matchTailRest : List Char → Bool
  | [] => false
  | c :: rest => matchDotW (c :: rest) || (isWordChar c && matchTailRest rest)

/-- Matches the regex fragment `\w+.\w+` as a prefix. -/
def matchTail : List Char → Bool
  | [] => false
  | c :: rest => isWordChar c && matchTailRest rest

/-- Matches `[.\w+]*@\w+.\w+` as a prefix (what remains of the whole email
pattern after its first mandatory word character; `\w*[.\w+]*` collapses to
`[.\w+]*` because every word character is in the class). -/
def matchMid : List Char → Bool
  | [] => false
  | c :: rest => (c == '@' && matchTail rest) || (isClassChar c && matchMid rest)

/-- The whole pattern `\w+[.\w+]*@\w+.\w+` on a character list: a mandatory
first word character, then `[.\w+]*@\w+.\w+` (again `\w*[.\w+]*` collapses
to `[.\w+]*`). -/
def emailMatchL : List Char → Bool
  | [] => false
  | c :: rest => isWordChar c && matchMid rest

/-- `re.match(r'\w+[.\w+]*@\w+.\w+', s)` succeeds: the pattern matches a
prefix of `s` (anchored at the start, unanchored at the end). -/
def emailMatch (s : String) : Bool :=
  emailMatchL s.toList

/-! ### `remove_rows_without_mail` -/

/-- Boolean-mask selection over the table with its `RangeIndex` starting at
`i`: keeps each row whose email matches, labelled with its original index. -/
def removeAux (i : Nat) : List Row → List (Nat × Row)
  | [] => []
  | r :: rest =>
    if emailMatch r.email then (i, r) :: removeAux (i + 1) rest
    else removeAux (i + 1) rest

/-- `self.data[self.data["email"].str.match(r'\w+[.\w+]*@\w+.\w+')].reset_index()`:
keep the rows whose email matches, in order; `reset_index` makes the result's
index the fresh list position and keeps each row's pre-filter index as the
retained `index` column (the `Nat` component). -/
def remove_rows_without_mail (df : List Row) : List (Nat × Row) :=
  removeAux 0 df

/-- The method does not assign to `self.data`: it returns the filtered copy
and leaves the stored table as it was. -/
def remove_step (df : List Row) : List (Nat × Row) × List Row :=
  (remove_rows_without_mail df, df)

/-! ### `fill_na_with_mean` -/

/-- The non-missing values among `q1`..`q5` of a row. -/
def qVals (r : Row) : List Rat :=
  List.filterMap id [r.q1, r.q2, r.q3, r.q4, r.q5]

/-- `self.data.loc[:,'q1':'q5'].mean(axis=1)` at one row: the mean of the
row's non-missing values among `q1`..`q5`; `NaN` (here `none`) when the row
has no non-missing value there. -/
def mean_grade (r : Row) : Option Rat :=
  if qVals r = [] then none else some ((qVals r).sum / (qVals r).length)

/-- The row has at least one missing value among `q1`..`q5`
(`.isna().any(1)` at one row). -/
def hasNa (r : Row) : Bool :=
  r.q1.isNone || r.q2.isNone || r.q3.isNone || r.q4.isNone || r.q5.isNone

/-- `fillna` at one cell: a present value is kept, a missing one is replaced
by the fill value (which may itself be `NaN` = `none`, in which case the cell
stays missing). -/
def fillCell (c : Option Rat) (m : Option Rat) : Option Rat :=
  match c with
  | some v => some v
  | none => m

/-- `self.data.fillna({'q1': mean_grade, ..., 'q5': mean_grade})` at one row:
every missing cell among `q1`..`q5` is filled with that row's `mean_grade`. -/
def fillRow (r : Row) : Row :=
  { r with
    q1 := fillCell r.q1 (mean_grade r)
    q2 := fillCell r.q2 (mean_grade r)
    q3 := fillCell r.q3 (mean_grade r)
    q4 := fillCell r.q4 (mean_grade r)
    q5 := fillCell r.q5 (mean_grade r) }

/-- `self.data.index[self.data.loc[:,'q1':'q5'].isna().any(1)]`: the indices
(positions, since the index is a `RangeIndex`) of the rows with at least one
missing value among `q1`..`q5`, in index order. -/
def nanIndices (df : List Row) : List Nat :=
  (List.range df.length).filter fun i =>
    match df.get? i with
    | some r => hasNa r
    | none => false

/-- `fill_na_with_mean`: computes `nan_array` from the table before filling,
fills every missing `q1`..`q5` cell with its row's mean in place, and returns
the (mutated) table together with `nan_array`. -/
def fill_na_with_mean (df : List Row) : List Row × List Nat :=
  (df.map fillRow, nanIndices df)

/-- The in-place mutation: after the call, `self.data` is the filled table
(the same object the method returns). -/
def fill_step (df : List Row) : (List Row × List Nat) × List Row :=
  (fill_na_with_mean df, (fill_na_with_mean df).1)

/-! ### `correlate_gender_age` -/

/-- The grouping key of a row: `['gender', self.data.age > 40]` — the gender
value paired with whether the age is strictly greater than 40. -/
def key (r : Row) : String × Bool := (r.gender, decide ((40 : Rat) < r.age))

/-- The pandas ordering of grouping keys: gender string ascending, then the
boolean with `False` before `True`. -/
def keyLt (a b : String × Bool) : Prop :=
  a.1 < b.1 ∨ (a.1 = b.1 ∧ a.2 = false ∧ b.2 = true)

instance (a b : String × Bool) : Decidable (keyLt a b) :=
  inferInstanceAs (Decidable (a.1 < b.1 ∨ (a.1 = b.1 ∧ a.2 = false ∧ b.2 = true)))

/-- Insert a key into a `keyLt`-sorted duplicate-free list of keys, keeping
it sorted and duplicate-free. -/
def insertKey (k : String × Bool) : List (String × Bool) → List (String × Bool)
  | [] => [k]
  | x :: xs =>
    if k = x then x :: xs
    else if keyLt k x then k :: x :: xs
    else x :: insertKey k xs

/-- The observed grouping keys, sorted ascending without duplicates
(`groupby` with its default `sort=True`). -/
def groupKeys (df : List Row) : List (String × Bool) :=
  df.foldl (fun acc r => insertKey (key r) acc) []

/-- `Series.mean()` over one question column of a group: the mean of the
non-missing values, `NaN` (`none`) when every value is missing. -/
def colMean (l : List (Option Rat)) : Option Rat :=
  if l.filterMap id = [] then none
  else some ((l.filterMap id).sum / (l.filterMap id).length)

/-- One output row of the grouped table: the per-group means of `q1`..`q5`. -/
structure QMeans where
  m1 : Option Rat
  m2 : Option Rat
  m3 : Option Rat
  m4 : Option Rat
  m5 : Option Rat
deriving DecidableEq, Repr

/-- The rows of one group: those whose grouping key is `k`. -/
def groupRows (df : List Row) (k : String × Bool) : List Row :=
  df.filter fun r => key r = k

/-- The aggregation of one group: means of `q1`..`q5` over the rows whose
grouping key is `k`. -/
def groupAgg (df : List Row) (k : String × Bool) : QMeans :=
  ⟨colMean ((groupRows df k).map (·.q1)), colMean ((groupRows df k).map (·.q2)),
   colMean ((groupRows df k).map (·.q3)), colMean ((groupRows df k).map (·.q4)),
   colMean ((groupRows df k).map (·.q5))⟩

/-- `self.data.groupby(['gender', self.data.age > 40])[['q1',...,'q5']].mean()`:
one row per observed (gender, age>40) combination, keys ascending, holding the
group's mean of each question. -/
def correlate_gender_age (df : List Row) : List ((String × Bool) × QMeans) :=
  (groupKeys df).map fun k => (k, groupAgg df k)

/-! ### `show_age_distrib` -/

/-- `np.linspace(0, 100, 11)`: the bin edges `[0, 10, ..., 100]`. -/
def binEdges : List Rat := (List.range 11).map fun i => 10 * i

/-- Membership of a value in histogram bin `j` of `plt.hist` with edges
`[0,10,...,100]`: bins `0`..`8` are half-open `[10j, 10j+10)`, the last bin
is closed `[90, 100]`. -/
def inBin (j : Nat) (x : Rat) : Bool :=
  if j = 9 then decide (90 ≤ x) && decide (x ≤ 100)
  else decide ((10 * j : Rat) ≤ x) && decide (x < 10 * (j + 1))

/-- The per-bin counts of the age histogram. -/
def ageCounts (df : List Row) : List Nat :=
  (List.range 10).map fun j => (df.filter fun r => inBin j r.age).length

/-- A component of the value `plt.hist` returns: the counts array, the
bin-edges array, or the container of bar patches (one patch per bin). -/
inductive PlotObj where
  | counts (l : List Nat)
  | edges (l : List Rat)
  | patches (n : Nat)
deriving DecidableEq, Repr

/-- `show_age_distrib` returns `plt.hist(self.data["age"], bins=np.linspace(0,
100, 11))` unchanged — the plotting library's 3-tuple `(n, bins, patches)`,
modelled as a heterogeneous list of its components. -/
def show_age_distrib (df : List Row) : List PlotObj :=
  [.counts (ageCounts df), .edges binEdges, .patches 10]

/-! ### Construction (`__init__`) -/

/-- The analyzer object: the validated path, and the loaded table (`none`
until `read_data` has populated `self.data`). -/
structure QuestionnaireAnalysis where
  data_fname : String
  data : Option (List Row)
deriving DecidableEq, Repr

/-- `__init__`: raises `ValueError` when `pathlib.Path(data_fname).is_file()`
is false, else stores the path; no data is read (the filesystem is modelled
by the predicate `isFile` telling which paths are existing regular files). -/
def initQA (isFile : String → Bool) (data_fname : String) :
    Except String QuestionnaireAnalysis :=
  if isFile data_fname then
    .ok { data_fname := data_fname, data := none }
  else
    .error (s!"{data_fname} is not a valid file")

/-! ### Concrete rows used in the examples of the testable properties -/

/-- Example row whose q-scores are `[2, 4, null, 6, 8]`. -/
def rowImpute : Row := ⟨30, "F", "a@b.c", some 2, some 4, none, some 6, some 8⟩

/-- Example row with all five q-scores missing. -/
def rowAllNa : Row := ⟨50, "M", "m@n.o", none, none, none, none, none⟩

/-- Example row with email `a.b@c.d`. -/
def rowMailA : Row := ⟨21, "F", "a.b@c.d", some 1, some 1, some 1, some 1, some 1⟩

/-- Example row with email `bad-email`. -/
def rowMailB : Row := ⟨22, "M", "bad-email", some 2, some 2, some 2, some 2, some 2⟩

/-- Example row with email `x@y.z`. -/
def rowMailC : Row := ⟨23, "F", "x@y.z", some 3, some 3, some 3, some 3, some 3⟩

/-- Example respondent: gender `M`, age 45, q1 score 10. -/
def rowM45 : Row := ⟨45, "M", "m@a.b", some 10, none, none, none, none⟩

/-- Example respondent: gender `M`, age 20, q1 score 0. -/
def rowM20 : Row := ⟨20, "M", "m@a.b", some 0, none, none, none, none⟩

/-! ## Lemmas about the email matcher -/

/-- Appending characters never breaks a `.\w+` prefix match. -/
lemma matchDotW_append (l t : List Char) (h : matchDotW l = true) :
    matchDotW (l ++ t) = true := by
  match l with
  | c :: d :: rest => exact h
  | [] => simp [matchDotW] at h
  | [c] => simp [matchDotW] at h

/-- Appending characters never breaks a `\w*.\w+` prefix match. -/
lemma matchTailRest_append (l t : List Char) (h : matchTailRest l = true) :
    matchTailRest (l ++ t) = true := by
  induction l with
  | nil => simp [matchTailRest] at h
  | cons c rest ih =>
    simp only [List.cons_append, matchTailRest, Bool.or_eq_true, Bool.and_eq_true] at h ⊢
    rcases h with h1 | ⟨hw, hr⟩
    · exact Or.inl (matchDotW_append (c :: rest) t h1)
    · exact Or.inr ⟨hw, ih hr⟩

/-- Appending characters never breaks a `\w+.\w+` prefix match. -/
lemma matchTail_append (l t : List Char) (h : matchTail l = true) :
    matchTail (l ++ t) = true := by
  match l with
  | [] => simp [matchTail] at h
  | c :: rest =>
    simp only [List.cons_append, matchTail, Bool.and_eq_true] at h ⊢
    exact ⟨h.1, matchTailRest_append rest t h.2⟩

/-- Appending characters never breaks a `[.\w+]*@\w+.\w+` prefix match. -/
lemma matchMid_append (l t : List Char) (h : matchMid l = true) :
    matchMid (l ++ t) = true := by
  induction l with
  | nil => simp [matchMid] at h
  | cons c rest ih =>
    simp only [List.cons_append, matchMid, Bool.or_eq_true, Bool.and_eq_true] at h ⊢
    rcases h with ⟨hc, hr⟩ | ⟨hc, hr⟩
    · exact Or.inl ⟨hc, matchTail_append rest t hr⟩
    · exact Or.inr ⟨hc, ih hr⟩

/-- The matcher is anchored only at the start: a match survives any suffix. -/
lemma emailMatch_append (s t : String) (h : emailMatch s = true) :
    emailMatch (s ++ t) = true := by
  unfold emailMatch at h ⊢
  rw [show (s ++ t).toList = s.toList ++ t.toList from by simp [String.toList]]
  cases hs : s.toList with
  | nil => rw [hs] at h; simp [emailMatchL] at h
  | cons c rest =>
    rw [hs] at h
    simp only [emailMatchL, List.cons_append, Bool.and_eq_true] at h ⊢
    exact ⟨h.1, matchMid_append rest t.toList h.2⟩

/-- Any run of class characters `[.\w+]` before the `@` is accepted. -/
lemma matchMid_class (mid tl : List Char) (hmid : ∀ c ∈ mid, isClassChar c = true)
    (h : matchTail tl = true) : matchMid (mid ++ '@' :: tl) = true := by
  induction mid with
  | nil =>
    simp only [List.nil_append, matchMid, Bool.or_eq_true, Bool.and_eq_true]
    exact Or.inl ⟨rfl, h⟩
  | cons c rest ih =>
    simp only [List.cons_append, matchMid, Bool.or_eq_true, Bool.and_eq_true]
    exact Or.inr ⟨hmid c (List.mem_cons_self c rest),
      ih fun d hd => hmid d (List.mem_cons_of_mem c hd)⟩

/-- Claim C10: the email validator is anchored only at the start of the
string — any string extending a match still matches (e.g. `a@b.c!!!` is
kept) — and the bracketed part `[.\w+]*` is a character class, so any mix of
dots, plus signs and word characters between the leading word character and
the `@` is accepted. -/
theorem claim_C10 :
    emailMatch "a@b.c!!!" = true
    ∧ (∀ s t : String, emailMatch s = true → emailMatch (s ++ t) = true)
    ∧ (∀ mid : List Char, (∀ c ∈ mid, isClassChar c = true) →
        emailMatch (String.mk ('a' :: (mid ++ '@' :: ['b', '.', 'c']))) = true) := by
  refine ⟨by decide, emailMatch_append, fun mid hmid => ?_⟩
  show emailMatchL ('a' :: (mid ++ '@' :: ['b', '.', 'c'])) = true
  simp only [emailMatchL, Bool.and_eq_true]
  exact ⟨by decide, matchMid_class mid ['b', '.', 'c'] hmid (by decide)⟩

/-- Witness for C10 at `s = "a@b.c"`, `t = "!!!"` and the class run
`['.', '+', 'x']`. -/
theorem claim_C10_witness :
    emailMatch ("a@b.c" ++ "!!!") = true
    ∧ emailMatch (String.mk ('a' :: (['.', '+', 'x'] ++ '@' :: ['b', '.', 'c']))) = true :=
  ⟨claim_C10.2.1 "a@b.c" "!!!" (by decide),
   claim_C10.2.2 ['.', '+', 'x'] (by decide)⟩

/-! ## Lemmas about `remove_rows_without_mail` -/

/-- The kept rows are exactly the filter of the table by the email test. -/
lemma removeAux_map_snd (df : List Row) :
    ∀ i : Nat, (removeAux i df).map Prod.snd = df.filter fun r => emailMatch r.email := by
  induction df with
  | nil => intro i; rfl
  | cons a rest ih =>
    intro i
    by_cases h : emailMatch a.email = true
    · simp [removeAux, h, List.filter_cons, ih (i + 1)]
    · simp [removeAux, h, List.filter_cons, ih (i + 1)]

/-- Membership in the mask selection: a labelled row appears exactly when it
sits at the corresponding offset of the table and its email matches. -/
lemma mem_removeAux (df : List Row) : ∀ (i j : Nat) (r : Row),
    (j, r) ∈ removeAux i df ↔
      ∃ k, j = i + k ∧ df.get? k = some r ∧ emailMatch r.email = true := by
  induction df with
  | nil => intro i j r; simp [removeAux]
  | cons a rest ih =>
    intro i j r
    by_cases h : emailMatch a.email = true
    · simp only [removeAux, if_pos h, List.mem_cons]
      constructor
      · rintro (he | hm)
        · have hj : j = i := congrArg Prod.fst he
          have hr : r = a := congrArg Prod.snd he
          exact ⟨0, by omega, by simp [hr], hr ▸ h⟩
        · obtain ⟨k, hk, hg, hm'⟩ := (ih (i + 1) j r).mp hm
          exact ⟨k + 1, by omega, by simpa using hg, hm'⟩
      · rintro ⟨k, hk, hg, hm'⟩
        cases k with
        | zero =>
          simp only [List.get?_cons_zero, Option.some.injEq] at hg
          exact Or.inl (by rw [hg, show j = i from by omega])
        | succ k =>
          exact Or.inr ((ih (i + 1) j r).mpr ⟨k, by omega, by simpa using hg, hm'⟩)
    · simp only [removeAux, if_neg h]
      constructor
      · intro hm
        obtain ⟨k, hk, hg, hm'⟩ := (ih (i + 1) j r).mp hm
        exact ⟨k + 1, by omega, by simpa using hg, hm'⟩
      · rintro ⟨k, hk, hg, hm'⟩
        cases k with
        | zero =>
          simp only [List.get?_cons_zero, Option.some.injEq] at hg
          exact absurd (hg ▸ hm') h
        | succ k =>
          exact (ih (i + 1) j r).mpr ⟨k, by omega, by simpa using hg, hm'⟩

/-- The retained pre-filter indices are strictly increasing and bounded below
by the starting index. -/
lemma removeAux_fst (df : List Row) : ∀ i : Nat,
    ((removeAux i df).map Prod.fst).Pairwise (· < ·) ∧
      ∀ j ∈ (removeAux i df).map Prod.fst, i ≤ j := by
  induction df with
  | nil => intro i; simp [removeAux]
  | cons a rest ih =>
    intro i
    by_cases h : emailMatch a.email = true
    · simp only [removeAux, if_pos h, List.map_cons]
      refine ⟨List.Pairwise.cons (fun j hj => ?_) (ih (i + 1)).1, fun j hj => ?_⟩
      · have := (ih (i + 1)).2 j hj; omega
      · rcases List.mem_cons.mp hj with he | hm
        · omega
        · have := (ih (i + 1)).2 j hm; omega
    · simp only [removeAux, if_neg h]
      exact ⟨(ih (i + 1)).1, fun j hj => by have := (ih (i + 1)).2 j hj; omega⟩

/-- Claim C2: `remove_rows_without_mail` returns a new table holding exactly
the rows whose email matches the loose pattern, in table order with the
pre-filter index retained alongside each row and a fresh contiguous 0-based
index (the list position); the stored table is untouched; on the three-email
example exactly the two valid-shaped emails survive with fresh index
`[0, 1]`. -/
theorem claim_C2 (df : List Row) :
    (remove_rows_without_mail df).map Prod.snd = (df.filter fun r => emailMatch r.email)
    ∧ (∀ i r, ((i, r) ∈ remove_rows_without_mail df) ↔
        df.get? i = some r ∧ emailMatch r.email = true)
    ∧ ((remove_rows_without_mail df).map Prod.fst).Pairwise (· < ·)
    ∧ (remove_step df).2 = df
    ∧ remove_rows_without_mail [rowMailA, rowMailB, rowMailC] =
        [(0, rowMailA), (2, rowMailC)] := by
  refine ⟨removeAux_map_snd df 0, fun i r => ?_, (removeAux_fst df 0).1, rfl, by decide⟩
  rw [remove_rows_without_mail, mem_removeAux df 0 i r]
  constructor
  · rintro ⟨k, hk, hg, hm⟩
    have : k = i := by omega
    exact ⟨this ▸ hg, hm⟩
  · rintro ⟨hg, hm⟩
    exact ⟨i, by omega, hg, hm⟩

/-! ## Lemmas about `fill_na_with_mean` -/

/-- A row has no non-missing q-value exactly when all five cells are `none`. -/
lemma qVals_eq_nil_iff (r : Row) :
    qVals r = [] ↔
      r.q1 = none ∧ r.q2 = none ∧ r.q3 = none ∧ r.q4 = none ∧ r.q5 = none := by
  obtain ⟨a, g, e, q1, q2, q3, q4, q5⟩ := r
  cases q1 <;> cases q2 <;> cases q3 <;> cases q4 <;> cases q5 <;> simp [qVals]

/-- Filling a row either does nothing (when every q-cell is missing) or
leaves no missing q-cell. -/
lemma fillRow_cases (r : Row) :
    (qVals r = [] ∧ fillRow r = r) ∨ (qVals r ≠ [] ∧ hasNa (fillRow r) = false) := by
  obtain ⟨a, g, e, q1, q2, q3, q4, q5⟩ := r
  cases q1 <;> cases q2 <;> cases q3 <;> cases q4 <;> cases q5 <;>
    simp [qVals, fillRow, fillCell, mean_grade, hasNa]

/-- A row with every q-cell missing is left unchanged (the fill value is
`NaN`). -/
lemma fillRow_allNa (r : Row) (h : qVals r = []) : fillRow r = r := by
  rcases fillRow_cases r with ⟨_, he⟩ | ⟨hne, _⟩
  · exact he
  · exact absurd h hne

/-- A row without missing q-cells is left unchanged by filling. -/
lemma fillRow_total (r : Row) (h : hasNa r = false) : fillRow r = r := by
  obtain ⟨a, g, e, q1, q2, q3, q4, q5⟩ := r
  cases q1 <;> cases q2 <;> cases q3 <;> cases q4 <;> cases q5 <;>
    simp_all [hasNa, fillRow, fillCell, mean_grade, qVals]

/-- Filling a row twice is the same as filling it once. -/
lemma fillRow_idem (r : Row) : fillRow (fillRow r) = fillRow r := by
  rcases fillRow_cases r with ⟨h, he⟩ | ⟨_, hf⟩
  · rw [he, he]
  · exact fillRow_total (fillRow r) hf

/-- After filling, a row still has a missing q-cell exactly when the original
row had no non-missing q-value at all. -/
lemma hasNa_fillRow (r : Row) : hasNa (fillRow r) = true ↔ qVals r = [] := by
  rcases fillRow_cases r with ⟨h, he⟩ | ⟨hne, hf⟩
  · rw [he]
    obtain ⟨h1, -⟩ := (qVals_eq_nil_iff r).mp h
    simp [hasNa, h1, h]
  · simp [hf, hne]

/-- Membership in the reported index list: exactly the positions of rows
with at least one missing q-cell. -/
lemma mem_nanIndices (df : List Row) (i : Nat) :
    i ∈ nanIndices df ↔ ∃ r, df.get? i = some r ∧ hasNa r = true := by
  unfold nanIndices
  rw [List.mem_filter, List.mem_range]
  constructor
  · rintro ⟨hi, hp⟩
    cases hg : df.get? i with
    | none => rw [hg] at hp; exact Bool.noConfusion hp
    | some r => rw [hg] at hp; exact ⟨r, rfl, hp⟩
  · rintro ⟨r, hg, hr⟩
    obtain ⟨hlt, -⟩ := List.get?_eq_some.mp hg
    exact ⟨hlt, by rw [hg]; exact hr⟩

/-- The reported indices are strictly increasing. -/
lemma nanIndices_pairwise (df : List Row) : (nanIndices df).Pairwise (· < ·) :=
  List.Pairwise.filter _ (List.pairwise_lt_range _)

/-- `fillna` at a cell with a non-`NaN` fill value: keep a present value,
otherwise take the fill value. -/
lemma fillCell_some (c : Option Rat) (m : Rat) : fillCell c (some m) = some (c.getD m) := by
  cases c <;> rfl

/-- The row mean is defined whenever some q-value is present. -/
lemma mean_grade_of_ne (r : Row) (h : qVals r ≠ []) :
    mean_grade r = some ((qVals r).sum / (qVals r).length) := by
  simp [mean_grade, h]

/-- Cell-level description of filling a row that has a defined mean. -/
lemma fillRow_of_mean (r : Row) (h : qVals r ≠ []) :
    fillRow r = { r with
      q1 := some (r.q1.getD ((qVals r).sum / (qVals r).length))
      q2 := some (r.q2.getD ((qVals r).sum / (qVals r).length))
      q3 := some (r.q3.getD ((qVals r).sum / (qVals r).length))
      q4 := some (r.q4.getD ((qVals r).sum / (qVals r).length))
      q5 := some (r.q5.getD ((qVals r).sum / (qVals r).length)) } := by
  unfold fillRow
  rw [mean_grade_of_ne r h]
  simp [fillCell_some]

/-- The non-missing values of the example row `[2, 4, null, 6, 8]`. -/
lemma qVals_rowImpute : qVals rowImpute = [2, 4, 6, 8] := by simp [qVals, rowImpute]

/-- The row mean of the example row is `(2+4+6+8)/4 = 5`. -/
lemma mean_grade_rowImpute : mean_grade rowImpute = some 5 := by
  rw [mean_grade, qVals_rowImpute]
  rw [if_neg (by simp : ¬([2, 4, 6, 8] : List Rat) = [])]
  norm_num

/-- Filling the example row yields `[2, 4, 5, 6, 8]`. -/
lemma fillRow_rowImpute :
    fillRow rowImpute = ⟨30, "F", "a@b.c", some 2, some 4, some 5, some 6, some 8⟩ := by
  unfold fillRow
  rw [mean_grade_rowImpute]
  simp [rowImpute, fillCell]

/-- Claim C1: `fill_na_with_mean` mutates the stored table in place to the
returned table; the table keeps its length; in every row with at least one
non-missing q-value, each missing cell among `q1`..`q5` becomes the mean of
that row's non-missing values there and present cells are unchanged; the
returned indices are exactly the original rows with at least one missing
q-cell, in ascending order; and the row `[2, 4, null, 6, 8]` becomes
`[2, 4, 5, 6, 8]` with its index reported. -/
theorem claim_C1 (df : List Row) :
    (fill_step df).2 = (fill_na_with_mean df).1
    ∧ (fill_na_with_mean df).1.length = df.length
    ∧ (∀ i r, df.get? i = some r → qVals r ≠ [] →
        (fill_na_with_mean df).1.get? i = some { r with
          q1 := some (r.q1.getD ((qVals r).sum / (qVals r).length))
          q2 := some (r.q2.getD ((qVals r).sum / (qVals r).length))
          q3 := some (r.q3.getD ((qVals r).sum / (qVals r).length))
          q4 := some (r.q4.getD ((qVals r).sum / (qVals r).length))
          q5 := some (r.q5.getD ((qVals r).sum / (qVals r).length)) })
    ∧ (∀ i, i ∈ (fill_na_with_mean df).2 ↔ ∃ r, df.get? i = some r ∧ hasNa r = true)
    ∧ ((fill_na_with_mean df).2).Pairwise (· < ·)
    ∧ fill_na_with_mean [rowImpute] =
        ([⟨30, "F", "a@b.c", some 2, some 4, some 5, some 6, some 8⟩], [0]) := by
  refine ⟨rfl, List.length_map df fillRow, fun i r hg hne => ?_,
    fun i => mem_nanIndices df i, nanIndices_pairwise df, ?_⟩
  · show (df.map fillRow).get? i = _
    rw [List.get?_map, hg, Option.map_some', fillRow_of_mean r hne]
  · refine Prod.ext ?_ (by decide)
    show List.map fillRow [rowImpute] = _
    rw [List.map_cons, List.map_nil, fillRow_rowImpute]

/-- Witness for C1 at the one-row table `[rowImpute]` and index 0. -/
theorem claim_C1_witness :
    (fill_na_with_mean [rowImpute]).1.get? 0 =
      some ⟨30, "F", "a@b.c", some 2, some 4, some 5, some 6, some 8⟩
    ∧ 0 ∈ (fill_na_with_mean [rowImpute]).2 := by
  have h := claim_C1 [rowImpute]
  have hμ : (qVals rowImpute).sum / ((qVals rowImpute).length : Rat) = 5 := by
    rw [qVals_rowImpute]; norm_num
  refine ⟨(h.2.2.1 0 rowImpute rfl (by simp [qVals, rowImpute])).trans ?_,
    (h.2.2.2.1 0).mpr ⟨rowImpute, rfl, by decide⟩⟩
  rw [hμ]
  simp [rowImpute]

/-- Claim C7: a row whose five q-cells are all missing is left unchanged by
`fill_na_with_mean` (the fill value is `NaN`), and its index is still
reported among the rows that had missing values. -/
theorem claim_C7 (df : List Row) (i : Nat) (r : Row) (hg : df.get? i = some r)
    (hall : r.q1 = none ∧ r.q2 = none ∧ r.q3 = none ∧ r.q4 = none ∧ r.q5 = none) :
    (fill_na_with_mean df).1.get? i = some r ∧ i ∈ (fill_na_with_mean df).2 := by
  have hnil : qVals r = [] := (qVals_eq_nil_iff r).mpr hall
  constructor
  · show (df.map fillRow).get? i = some r
    rw [List.get?_map, hg, Option.map_some', fillRow_allNa r hnil]
  · exact (mem_nanIndices df i).mpr ⟨r, hg, by simp [hasNa, hall.1]⟩

/-- Witness for C7 at the one-row table `[rowAllNa]` and index 0. -/
theorem claim_C7_witness :
    (fill_na_with_mean [rowAllNa]).1.get? 0 = some rowAllNa
    ∧ 0 ∈ (fill_na_with_mean [rowAllNa]).2 :=
  claim_C7 [rowAllNa] 0 rowAllNa rfl (by decide)

/-- Counterexample to C6 as stated: on a table whose single row has all five
q-cells missing, the second call to `fill_na_with_mean` still reports that
row (the claim says the second call reports no rows with missing values). -/
theorem claim_C6_counterexample :
    (fill_na_with_mean (fill_na_with_mean [rowAllNa]).1).2 ≠ [] := by decide

/-- Claim C6 (amended): a second call to `fill_na_with_mean` never changes
the table, and it reports exactly the rows whose q-cells were all missing; in
particular, when every row has at least one non-missing q-value, the second
call changes nothing and reports no rows. -/
theorem claim_C6 (df : List Row) :
    (fill_na_with_mean (fill_na_with_mean df).1).1 = (fill_na_with_mean df).1
    ∧ (∀ i, i ∈ (fill_na_with_mean (fill_na_with_mean df).1).2 ↔
        ∃ r, df.get? i = some r ∧ qVals r = [])
    ∧ ((∀ r ∈ df, qVals r ≠ []) →
        fill_na_with_mean (fill_na_with_mean df).1 = ((fill_na_with_mean df).1, [])) := by
  refine ⟨?_, fun i => ?_, fun h => ?_⟩
  · show (df.map fillRow).map fillRow = df.map fillRow
    rw [List.map_map]
    exact List.map_congr_left fun r _ => fillRow_idem r
  · show i ∈ nanIndices (df.map fillRow) ↔ _
    rw [mem_nanIndices]
    constructor
    · rintro ⟨r', hg', hna⟩
      rw [List.get?_map] at hg'
      obtain ⟨r, hg, hfr⟩ := Option.map_eq_some'.mp hg'
      exact ⟨r, hg, (hasNa_fillRow r).mp (hfr ▸ hna)⟩
    · rintro ⟨r, hg, hnil⟩
      exact ⟨fillRow r, by rw [List.get?_map, hg, Option.map_some'],
        (hasNa_fillRow r).mpr hnil⟩
  · have h2 : (fill_na_with_mean (fill_na_with_mean df).1).1 = (fill_na_with_mean df).1 := by
      show (df.map fillRow).map fillRow = df.map fillRow
      rw [List.map_map]
      exact List.map_congr_left fun r _ => fillRow_idem r
    refine Prod.ext h2 ?_
    show nanIndices (df.map fillRow) = []
    rw [List.eq_nil_iff_forall_not_mem]
    intro i hi
    obtain ⟨r', hg', hna⟩ := (mem_nanIndices _ i).mp hi
    rw [List.get?_map] at hg'
    obtain ⟨r, hg, hfr⟩ := Option.map_eq_some'.mp hg'
    exact h r (List.get?_mem hg) ((hasNa_fillRow r).mp (hfr ▸ hna))

/-- Witness for C6 at the one-row table `[rowImpute]`, whose row has
non-missing q-values. -/
theorem claim_C6_witness :
    (fill_na_with_mean (fill_na_with_mean [rowImpute]).1).1 = (fill_na_with_mean [rowImpute]).1
    ∧ fill_na_with_mean (fill_na_with_mean [rowImpute]).1 =
        ((fill_na_with_mean [rowImpute]).1, []) :=
  ⟨(claim_C6 [rowImpute]).1, (claim_C6 [rowImpute]).2.2 (by decide)⟩

/-- Claim C9: construction fails exactly when the path is not an existing
regular file, and on success it stores the path with no data loaded yet
(`self.data` is only populated by `read_data`). -/
theorem claim_C9 (isFile : String → Bool) (p : String) :
    ((∃ e, initQA isFile p = .error e) ↔ isFile p = false)
    ∧ (∀ st, initQA isFile p = .ok st → st.data_fname = p ∧ st.data = none) := by
  unfold initQA
  by_cases h : isFile p = true
  · rw [if_pos h]
    refine ⟨⟨fun ⟨e, he⟩ => absurd he (by simp), fun hf => ?_⟩, fun st hst => ?_⟩
    · rw [h] at hf; exact Bool.noConfusion hf
    · rw [Except.ok.injEq] at hst
      subst hst
      exact ⟨rfl, rfl⟩
  · have hf : isFile p = false := by revert h; cases isFile p <;> simp
    rw [if_neg h]
    exact ⟨⟨fun _ => hf, fun _ => ⟨_, rfl⟩⟩, fun st hst => absurd hst (by simp)⟩

/-- Witness for C9: a filesystem holding only `data.json`; construction on
`tata.json` errors, construction on `data.json` stores the path unloaded. -/
theorem claim_C9_witness :
    (∃ e, initQA (fun s => s == "data.json") "tata.json" = .error e)
    ∧ ((⟨"data.json", none⟩ : QuestionnaireAnalysis).data_fname = "data.json"
        ∧ (⟨"data.json", none⟩ : QuestionnaireAnalysis).data = none) :=
  ⟨(claim_C9 (fun s => s == "data.json") "tata.json").1.mpr (by decide),
   (claim_C9 (fun s => s == "data.json") "data.json").2 ⟨"data.json", none⟩ rfl⟩

/-- Claim C5 fails on the code: `show_age_distrib` returns the plotting
library's histogram value unchanged, a 3-tuple (counts, bin edges, bar
patches), not a pair — here evaluated at a one-row table. -/
theorem claim_C5 :
    (show_age_distrib [rowAllNa]).length = 3 ∧ (show_age_distrib [rowAllNa]).length ≠ 2 :=
  ⟨rfl, by decide⟩

/-! ## Lemmas about the age histogram -/

/-- Below the first `n` uniform bins there is no hit: a value at or above
`10n` lies in none of the half-open bins `[10j, 10j+10)` with `j < n`. -/
lemma countP_uniform_zero (x : Rat) (n : Nat) (h : (10 * n : Rat) ≤ x) :
    ((List.range n).countP fun j : Nat =>
      decide ((10 * j : Rat) ≤ x) && decide (x < 10 * (j + 1))) = 0 := by
  refine List.countP_eq_zero.mpr fun j hj => ?_
  simp only [Bool.and_eq_true, decide_eq_true_eq, not_and]
  intro _
  have hj' : j < n := List.mem_range.mp hj
  have hc : ((j : Rat) + 1) ≤ (n : Rat) := by exact_mod_cast hj'
  intro hlt
  linarith

/-- A value in `[0, 10n)` lies in exactly one of the `n` half-open uniform
bins `[10j, 10j+10)`. -/
lemma countP_uniform (x : Rat) (h0 : 0 ≤ x) :
    ∀ n : Nat, x < 10 * n →
      ((List.range n).countP fun j : Nat =>
        decide ((10 * j : Rat) ≤ x) && decide (x < 10 * (j + 1))) = 1 := by
  intro n
  induction n with
  | zero =>
    intro hu
    exact absurd h0 (by push_cast at hu; linarith)
  | succ n ih =>
    intro hu
    rw [List.range_succ, List.countP_append]
    rcases lt_or_le x (10 * n) with hx | hx
    · rw [ih hx]
      have h2 : ¬ ((10 * n : Rat) ≤ x) := not_le.mpr hx
      simp [List.countP_cons, h2]
    · rw [countP_uniform_zero x n hx]
      have hu' : x < 10 * ((n : Rat) + 1) := by push_cast at hu ⊢; linarith
      simp [List.countP_cons, hx, hu']

/-- A value in `[0, 100]` lies in exactly one of the ten histogram bins
(the last one being closed at 100). -/
lemma countP_inBin (x : Rat) (h0 : 0 ≤ x) (h1 : x ≤ 100) :
    ((List.range 10).countP fun j => inBin j x) = 1 := by
  rw [List.range_succ 9, List.countP_append]
  have hcong : ((List.range 9).countP fun j => inBin j x) =
      (List.range 9).countP fun j : Nat =>
        decide ((10 * j : Rat) ≤ x) && decide (x < 10 * (j + 1)) := by
    refine List.countP_congr fun j hj => ?_
    have hj9 : ¬ j = 9 := by have := List.mem_range.mp hj; omega
    simp only [inBin, if_neg hj9]
  rw [hcong]
  rcases lt_or_le x 90 with hx | hx
  · rw [countP_uniform x h0 9 (by push_cast; linarith)]
    have h2 : ¬ (90 : Rat) ≤ x := not_le.mpr hx
    simp [List.countP_cons, inBin, h2]
  · rw [countP_uniform_zero x 9 (by push_cast; linarith)]
    simp [List.countP_cons, inBin, hx, h1]

/-- Sum of a 0/1 indicator over a list is `countP`. -/
lemma sum_indicator (l : List Nat) (p : Nat → Bool) :
    (l.map fun j => if p j then 1 else 0).sum = l.countP p := by
  induction l with
  | nil => simp
  | cons a rest ih =>
    by_cases h : p a = true <;> simp [List.countP_cons, h, ih] <;> omega

/-- Sums of pointwise-added maps split. -/
lemma map_add_sum (l : List Nat) (f g : Nat → Nat) :
    (l.map fun x => f x + g x).sum = (l.map f).sum + (l.map g).sum := by
  induction l with
  | nil => simp
  | cons a rest ih => simp [ih]; omega

/-- When every age lies in `[0, 100]`, the ten bin counts sum to the number
of respondents. -/
lemma ageCounts_sum (df : List Row) (h : ∀ r ∈ df, 0 ≤ r.age ∧ r.age ≤ 100) :
    (ageCounts df).sum = df.length := by
  induction df with
  | nil => simp [ageCounts]
  | cons r rest ih =>
    have hsplit : ∀ j : Nat, ((r :: rest).filter fun s => inBin j s.age).length =
        (if inBin j r.age then 1 else 0) + (rest.filter fun s => inBin j s.age).length := by
      intro j
      by_cases hb : inBin j r.age = true <;> simp [List.filter_cons, hb] <;> omega
    rw [ageCounts, List.map_congr_left fun j _ => hsplit j, map_add_sum,
      sum_indicator, countP_inBin r.age (h r (List.mem_cons_self r rest)).1
        (h r (List.mem_cons_self r rest)).2]
    have ih' := ih fun s hs => h s (List.mem_cons_of_mem r hs)
    rw [ageCounts] at ih'
    rw [ih', List.length_cons]
    omega

/-- Claim C4: with all ages in `[0, 100]`, the histogram partitions the age
column into 10 bins whose counts sum to the number of respondents, with bin
edges exactly `[0, 10, ..., 100]`, and an age of exactly 100 is counted in
the last bin and no other (the last bin is closed on both ends). -/
theorem claim_C4 (df : List Row) (h : ∀ r ∈ df, 0 ≤ r.age ∧ r.age ≤ 100) :
    (ageCounts df).sum = df.length
    ∧ binEdges = [0, 10, 20, 30, 40, 50, 60, 70, 80, 90, 100]
    ∧ (ageCounts df).length = 10
    ∧ inBin 9 100 = true ∧ (∀ j, j < 9 → inBin j 100 = false) := by
  refine ⟨ageCounts_sum df h, ?_, by simp [ageCounts], by norm_num [inBin], ?_⟩
  · rw [binEdges, show List.range 11 = [0, 1, 2, 3, 4, 5, 6, 7, 8, 9, 10] from by decide]
    norm_num
  · intro j hj
    interval_cases j <;> norm_num [inBin]

/-- Witness for C4 at the one-row table `[rowAllNa]` (age 50). -/
theorem claim_C4_witness :
    (ageCounts [rowAllNa]).sum = [rowAllNa].length
    ∧ binEdges = [0, 10, 20, 30, 40, 50, 60, 70, 80, 90, 100]
    ∧ (ageCounts [rowAllNa]).length = 10
    ∧ inBin 9 100 = true ∧ inBin 0 100 = false :=
  ⟨(claim_C4 [rowAllNa] (by norm_num [rowAllNa])).1,
   (claim_C4 [rowAllNa] (by norm_num [rowAllNa])).2.1,
   (claim_C4 [rowAllNa] (by norm_num [rowAllNa])).2.2.1,
   (claim_C4 [rowAllNa] (by norm_num [rowAllNa])).2.2.2.1,
   (claim_C4 [rowAllNa] (by norm_num [rowAllNa])).2.2.2.2 0 (by decide)⟩

/-! ## Lemmas about `correlate_gender_age` -/

/-- The pandas key order is transitive. -/
lemma keyLt_trans {a b c : String × Bool} (h1 : keyLt a b) (h2 : keyLt b c) :
    keyLt a c := by
  rcases h1 with h1 | ⟨he1, ha1, hb1⟩
  · rcases h2 with h2 | ⟨he2, _, _⟩
    · exact Or.inl (lt_trans h1 h2)
    · exact Or.inl (lt_of_lt_of_eq h1 he2)
  · rcases h2 with h2 | ⟨he2, ha2, hb2⟩
    · exact Or.inl (lt_of_eq_of_lt he1 h2)
    · rw [hb1] at ha2
      exact Bool.noConfusion ha2

/-- Distinct keys are comparable. -/
lemma keyLt_total (a b : String × Bool) (hne : a ≠ b) : keyLt a b ∨ keyLt b a := by
  rcases lt_trichotomy a.1 b.1 with h | h | h
  · exact Or.inl (Or.inl h)
  · have hsnd : a.2 ≠ b.2 := fun hs => hne (Prod.ext h hs)
    cases ha : a.2 <;> cases hb : b.2
    · exact absurd (ha.trans hb.symm) hsnd
    · exact Or.inl (Or.inr ⟨h, ha, hb⟩)
    · exact Or.inr (Or.inr ⟨h.symm, hb, ha⟩)
    · exact absurd (ha.trans hb.symm) hsnd
  · exact Or.inr (Or.inl h)

/-- Inserting a key adds it to the collected key set. -/
lemma mem_insertKey (k a : String × Bool) (l : List (String × Bool)) :
    a ∈ insertKey k l ↔ a = k ∨ a ∈ l := by
  induction l with
  | nil => simp [insertKey]
  | cons x xs ih =>
    by_cases h1 : k = x
    · simp only [insertKey, if_pos h1]
      constructor
      · exact Or.inr
      · rintro (rfl | h)
        · rw [h1]; exact List.mem_cons_self x xs
        · exact h
    · by_cases h2 : keyLt k x
      · simp only [insertKey, if_neg h1, if_pos h2, List.mem_cons]
      · simp only [insertKey, if_neg h1, if_neg h2, List.mem_cons, ih]
        tauto

/-- Inserting a key preserves strict ascending sortedness of the key list. -/
lemma pairwise_insertKey (k : String × Bool) (l : List (String × Bool))
    (h : l.Pairwise keyLt) : (insertKey k l).Pairwise keyLt := by
  induction l with
  | nil => simp [insertKey]
  | cons x xs ih =>
    rcases List.pairwise_cons.mp h with ⟨hx, hxs⟩
    by_cases h1 : k = x
    · simp only [insertKey, if_pos h1]
      exact h
    · by_cases h2 : keyLt k x
      · simp only [insertKey, if_neg h1, if_pos h2]
        refine List.pairwise_cons.mpr ⟨fun y hy => ?_, h⟩
        rcases List.mem_cons.mp hy with rfl | hmem
        · exact h2
        · exact keyLt_trans h2 (hx y hmem)
      · simp only [insertKey, if_neg h1, if_neg h2]
        refine List.pairwise_cons.mpr ⟨fun y hy => ?_, ih hxs⟩
        rcases (mem_insertKey k y xs).mp hy with he | hmem
        · rw [he]; exact (keyLt_total k x h1).resolve_left h2
        · exact hx y hmem

/-- Folding insertions over the table keeps the key list sorted. -/
lemma pairwise_foldl_insert (df : List Row) :
    ∀ acc : List (String × Bool), acc.Pairwise keyLt →
      (df.foldl (fun acc r => insertKey (key r) acc) acc).Pairwise keyLt := by
  induction df with
  | nil => intro acc h; exact h
  | cons r rest ih => intro acc h; exact ih _ (pairwise_insertKey _ _ h)

/-- A key is collected by the fold exactly when it was already present or is
observed in the table. -/
lemma mem_foldl_insert (df : List Row) :
    ∀ (acc : List (String × Bool)) (a : String × Bool),
      a ∈ df.foldl (fun acc r => insertKey (key r) acc) acc ↔
        a ∈ acc ∨ ∃ r ∈ df, key r = a := by
  induction df with
  | nil => intro acc a; simp
  | cons r rest ih =>
    intro acc a
    rw [List.foldl_cons, ih, mem_insertKey]
    simp only [List.mem_cons]
    constructor
    · rintro ((rfl | ha) | ⟨r', hr', hk⟩)
      · exact Or.inr ⟨r, Or.inl rfl, rfl⟩
      · exact Or.inl ha
      · exact Or.inr ⟨r', Or.inr hr', hk⟩
    · rintro (ha | ⟨r', (rfl | hr'), hk⟩)
      · exact Or.inl (Or.inr ha)
      · exact Or.inl (Or.inl hk.symm)
      · exact Or.inr ⟨r', hr', hk⟩

/-- The observed keys are sorted ascending. -/
lemma groupKeys_pairwise (df : List Row) : (groupKeys df).Pairwise keyLt :=
  pairwise_foldl_insert df [] List.Pairwise.nil

/-- The observed keys are exactly the keys of the table's rows. -/
lemma mem_groupKeys (df : List Row) (a : String × Bool) :
    a ∈ groupKeys df ↔ ∃ r ∈ df, key r = a := by
  rw [groupKeys, mem_foldl_insert df [] a]
  simp

/-- The grouping key of the 45-year-old example respondent. -/
lemma key_rowM45 : key rowM45 = ("M", true) := by
  simp [key, rowM45]; norm_num

/-- The grouping key of the 20-year-old example respondent. -/
lemma key_rowM20 : key rowM20 = ("M", false) := by
  simp [key, rowM20]; norm_num

/-- The sorted observed keys of the two-respondent example. -/
lemma groupKeys_example :
    groupKeys [rowM45, rowM20] = [("M", false), ("M", true)] := by
  simp only [groupKeys, List.foldl_cons, List.foldl_nil, key_rowM45, key_rowM20]
  simp only [insertKey]
  split_ifs with h1 h2
  · exact absurd h1 (by decide)
  · rfl
  · exact absurd (Or.inr ⟨rfl, rfl, rfl⟩ : keyLt ("M", false) ("M", true)) h2

/-- The below-40 group of the example holds exactly the 20-year-old. -/
lemma groupRows_exF : groupRows [rowM45, rowM20] ("M", false) = [rowM20] := by
  simp [groupRows, List.filter_cons, key_rowM45, key_rowM20]

/-- The above-40 group of the example holds exactly the 45-year-old. -/
lemma groupRows_exT : groupRows [rowM45, rowM20] ("M", true) = [rowM45] := by
  simp [groupRows, List.filter_cons, key_rowM45, key_rowM20]

/-- The q1 mean of the below-40 example group is 0. -/
lemma groupAgg_exF :
    groupAgg [rowM45, rowM20] ("M", false) = ⟨some 0, none, none, none, none⟩ := by
  rw [groupAgg, groupRows_exF]
  norm_num [colMean, rowM20, show List.filterMap id [some (0 : Rat)] = [0] from rfl]

/-- The q1 mean of the above-40 example group is 10. -/
lemma groupAgg_exT :
    groupAgg [rowM45, rowM20] ("M", true) = ⟨some 10, none, none, none, none⟩ := by
  rw [groupAgg, groupRows_exT]
  norm_num [colMean, rowM45, show List.filterMap id [some (10 : Rat)] = [10] from rfl]

/-- Claim C3: `correlate_gender_age` has one output row per observed
(gender, age>40) combination — absent combinations yield no row — ordered
ascending by gender then by the boolean (`False` before `True`), each row
holding the group's per-question means; on the example of two gender-`M`
respondents aged 45 and 20 with q1 scores 10 and 0, the result is the two
distinct rows `(("M", false), q1 mean 0)` and `(("M", true), q1 mean 10)`. -/
theorem claim_C3 (df : List Row) :
    (∀ k, (∃ m, (k, m) ∈ correlate_gender_age df) ↔ ∃ r ∈ df, key r = k)
    ∧ ((correlate_gender_age df).map Prod.fst).Pairwise keyLt
    ∧ (∀ k m, (k, m) ∈ correlate_gender_age df → m = groupAgg df k)
    ∧ correlate_gender_age [rowM45, rowM20] =
        [(("M", false), ⟨some 0, none, none, none, none⟩),
         (("M", true), ⟨some 10, none, none, none, none⟩)] := by
  have hmap : (correlate_gender_age df).map Prod.fst = groupKeys df := by
    rw [correlate_gender_age, List.map_map]
    rw [show (Prod.fst ∘ fun k : String × Bool => (k, groupAgg df k)) = id from rfl,
      List.map_id]
  refine ⟨fun k => ?_, hmap ▸ groupKeys_pairwise df, fun k m hm => ?_, ?_⟩
  · constructor
    · rintro ⟨m, hm⟩
      obtain ⟨a, ha, he⟩ := List.mem_map.mp hm
      have hak : a = k := congrArg Prod.fst he
      exact (mem_groupKeys df k).mp (hak ▸ ha)
    · intro hex
      exact ⟨groupAgg df k, List.mem_map.mpr ⟨k, (mem_groupKeys df k).mpr hex, rfl⟩⟩
  · obtain ⟨a, ha, he⟩ := List.mem_map.mp hm
    have hak : a = k := congrArg Prod.fst he
    have hm' : groupAgg df a = m := congrArg Prod.snd he
    rw [← hm', hak]
  · rw [correlate_gender_age, groupKeys_example, List.map_cons, List.map_cons,
      List.map_nil, groupAgg_exF, groupAgg_exT]

/-- Witness for C3 on the two-respondent example. -/
theorem claim_C3_witness :
    (⟨some 0, none, none, none, none⟩ : QMeans) = groupAgg [rowM45, rowM20] ("M", false)
    ∧ (∃ m, (("M", true), m) ∈ correlate_gender_age [rowM45, rowM20]) := by
  have h := claim_C3 [rowM45, rowM20]
  constructor
  · refine h.2.2.1 ("M", false) ⟨some 0, none, none, none, none⟩ ?_
    rw [h.2.2.2]
    exact List.mem_cons_self _ _
  · exact (h.1 ("M", true)).mpr ⟨rowM45, List.mem_cons_self _ _, key_rowM45⟩

/-- Claim C8: `remove_rows_without_mail` leaves the stored table unchanged
(same length and contents after the call), and calling it twice on the
unmodified source table yields identical results: the method builds its
result from a fresh filtered copy and never assigns to the stored table. -/
theorem claim_C8 (df : List Row) :
    (remove_step df).2 = df
    ∧ ((remove_step df).2).length = df.length
    ∧ remove_rows_without_mail (remove_step df).2 = remove_rows_without_mail df
    ∧ (remove_step (remove_step df).2).1 = (remove_step df).1 :=
  ⟨rfl, rfl, rfl, rfl⟩

end HW5
